import Mathlib

/-!
# Verification of the selective cleaning engine of `no-code-data-cleaning`

Shallow embedding of `DataProcessor.clean_data` (src/app.py, lines 1109-1177)
over an explicit dataframe model.  A pandas `DataFrame` is modelled as an
ordered list of named, dtype-tagged columns together with a list of rows;
each row carries its stable pandas index label (`Row.id`) and its cells
aligned with the column list.  A cell is either a numeric value (pandas
numeric scalars, modelled by the exact fraction type `PyNum`), a Python string, the missing marker
(`NaN`), or a Python list object stored in an object column (pandas object
columns may hold arbitrary Python objects; lists are unhashable, which is
the one realistic way `clean_data`'s body can raise).
-/

/-- Bounded-fuel Euclidean algorithm; the first argument strictly
decreases, so fuel `x + 1` always suffices.  Structural recursion keeps it
kernel-computable (unlike the well-founded `Nat.gcd`). -/
def gcdFuel : Nat → Nat → Nat → Nat
  | 0, _, y => y
  | fuel + 1, x, y => if x = 0 then y else gcdFuel fuel (y % x) x

/-- Greatest common divisor, kernel-computable. -/
def gcdK (x y : Nat) : Nat := gcdFuel (x + 1) x y

/-- An exact rational value of a pandas numeric scalar, kept in lowest
terms with a positive denominator so that structural equality is value
equality.  (Pandas floats are modelled exactly; every value arising in the
engine is a finite decimal or a quartile interpolation thereof.) -/
structure PyNum where
  num : Int
  den : Nat
deriving DecidableEq

/-- Build a canonical `PyNum` from a numerator and positive denominator. -/
def pyNorm (n : Int) (d : Nat) : PyNum :=
  let g := gcdK n.natAbs d
  if g = 0 then ⟨0, 1⟩ else ⟨n / (g : Int), d / g⟩

/-- Embed an integer. -/
def pyInt (n : Int) : PyNum := ⟨n, 1⟩

/-- Addition. -/
def pyAdd (a b : PyNum) : PyNum :=
  pyNorm (a.num * (b.den : Int) + b.num * (a.den : Int)) (a.den * b.den)

/-- Subtraction. -/
def pySub (a b : PyNum) : PyNum :=
  pyNorm (a.num * (b.den : Int) - b.num * (a.den : Int)) (a.den * b.den)

/-- Multiplication. -/
def pyMul (a b : PyNum) : PyNum := pyNorm (a.num * b.num) (a.den * b.den)

/-- Division (the engine only divides by nonzero values; division by zero
is given the conventional value 0). -/
def pyDiv (a b : PyNum) : PyNum :=
  if b.num = 0 then ⟨0, 1⟩
  else if b.num < 0 then pyNorm (-(a.num * (b.den : Int))) (a.den * b.num.natAbs)
  else pyNorm (a.num * (b.den : Int)) (a.den * b.num.natAbs)

/-- Comparison by cross multiplication (denominators are positive). -/
def pyLe (a b : PyNum) : Bool := decide (a.num * (b.den : Int) ≤ b.num * (a.den : Int))

/-- Sum of a list of values. -/
def pySum (l : List PyNum) : PyNum := l.foldr pyAdd (pyInt 0)

/-- A cell of a dataframe: numeric scalar, string, missing marker (NaN),
or a Python list object (possible in a pandas object column; unhashable). -/
inductive Cell where
  | num (q : PyNum)
  | str (s : String)
  | missing
  | pylist (xs : List PyNum)
deriving DecidableEq

/-- The pandas dtype of a column as far as `clean_data` distinguishes them:
`select_dtypes(include=[np.number])` picks `numeric`,
`select_dtypes(include=['object'])` picks `obj`, anything else is `other`. -/
inductive Dtype where
  | numeric
  | obj
  | other
deriving DecidableEq

/-- A named, dtype-tagged column header. -/
structure Col where
  name : String
  dtype : Dtype
deriving DecidableEq

/-- A dataframe row: its stable index label and its cells, aligned with the
dataframe's column list. -/
structure Row where
  id : Nat
  cells : List Cell
deriving DecidableEq

/-- A dataframe: ordered column headers plus rows. -/
structure DF where
  cols : List Col
  rows : List Row
deriving DecidableEq

/-- The `operations` dict passed to `clean_data`, with the `.get` defaults
used at src/app.py lines 1116-1156. -/
structure Ops where
  remove_duplicates : Bool := false
  handle_missing : Bool := false
  missing_method : String := "drop"
  standardize_text : Bool := false
  text_lowercase : Bool := false
  text_trim : Bool := true
  remove_outliers : Bool := false
deriving DecidableEq

/-- Default column header used for out-of-range `getD` access. -/
def cDflt : Col := ⟨"", Dtype.other⟩

/-- Default row used for out-of-range `getD` access. -/
def rDflt : Row := ⟨0, []⟩

/-- Cell of dataframe `df` at row position `i`, column position `j`. -/
def cellAt (df : DF) (i j : Nat) : Cell :=
  ((df.rows.getD i rDflt).cells).getD j Cell.missing

/-- `df.isnull().sum().sum()`: the number of missing cells. -/
def countMissing (df : DF) : Nat :=
  (df.rows.map (fun r => (r.cells.filter (fun c => c = Cell.missing)).length)).sum

/-- A cell is hashable unless it is a Python list
(`drop_duplicates` hashes row tuples and raises `TypeError` otherwise). -/
def hashableCell : Cell → Bool
  | .pylist _ => false
  | _ => true

/-- All cells of a row are hashable. -/
def rowHashable (r : Row) : Bool := r.cells.all hashableCell

/-- Core of `df.drop_duplicates()`: keep a row iff its cell tuple has not
been seen before (pandas keeps the first occurrence). -/
def dropDupGo (seen : List (List Cell)) : List Row → List Row
  | [] => []
  | r :: rs =>
    if r.cells ∈ seen then dropDupGo seen rs
    else r :: dropDupGo (r.cells :: seen) rs

/-- `df.drop_duplicates()` (src/app.py line 1118): raises on unhashable
cells, otherwise keeps the first occurrence of each row value tuple. -/
def drop_duplicates (df : DF) : Except String DF :=
  if df.rows.all rowHashable then .ok ⟨df.cols, dropDupGo [] df.rows⟩
  else .error "unhashable type: list"

/-- `df.dropna()` (src/app.py line 1129): drop rows with any missing cell. -/
def dropna (df : DF) : DF :=
  ⟨df.cols, df.rows.filter (fun r => r.cells.all (fun c => !(c = Cell.missing : Bool)))⟩

/-- The numeric values of a cell list (pandas skips NaN in reductions). -/
def numsOf (cs : List Cell) : List PyNum :=
  cs.filterMap (fun c => match c with | .num q => some q | _ => none)

/-- Cells of column position `j`, in row order. -/
def colCells (rows : List Row) (j : Nat) : List Cell :=
  rows.map (fun r => r.cells.getD j Cell.missing)

/-- Column mean over non-missing numeric values, as in
`cleaned_df[numeric_columns].mean()`; `none` models the NaN mean of an
all-missing column (then `fillna` fills nothing). -/
def colMean (cs : List Cell) : Option PyNum :=
  let vs := numsOf cs
  if vs.length = 0 then none else some (pyDiv (pySum vs) (pyInt (vs.length : Int)))

/-- Per-column fill value for `fillna(mean)`: the mean for numeric dtype
columns, nothing for other dtypes (only `numeric_columns` are assigned
at src/app.py lines 1131-1134). -/
def meansGo (df : DF) : Nat → List Col → List (Option PyNum)
  | _, [] => []
  | j, c :: cs =>
    (if c.dtype = Dtype.numeric then colMean (colCells df.rows j) else none)
      :: meansGo df (j + 1) cs

/-- Apply per-column fill values to a row's cells (missing cells only). -/
def fillCells : List (Option PyNum) → List Cell → List Cell
  | m :: ms, c :: cs =>
    (match m with
      | some v => if c = Cell.missing then Cell.num v else c
      | none => c) :: fillCells ms cs
  | _, cs => cs

/-- `fill_mean` (src/app.py lines 1130-1134): fill missing cells of numeric
columns with the column mean computed over the whole column. -/
def fillMean (df : DF) : DF :=
  let ms := meansGo df 0 df.cols
  ⟨df.cols, df.rows.map (fun r => ⟨r.id, fillCells ms r.cells⟩)⟩

/-- One row of `fillna(method='ffill')`: a missing cell takes the value
carried down from the nearest preceding row of the same column. -/
def ffillCells : List Cell → List Cell → List Cell
  | l :: ls, c :: cs => (if c = Cell.missing then l else c) :: ffillCells ls cs
  | _, cs => cs

/-- Forward-fill walk over the rows, carrying the last seen cells. -/
def ffillGo : List Cell → List Row → List Row
  | _, [] => []
  | last, r :: rs =>
    let cs := ffillCells last r.cells
    ⟨r.id, cs⟩ :: ffillGo cs rs

/-- `fillna(method='ffill')` (src/app.py line 1136). -/
def ffillDF (df : DF) : DF :=
  ⟨df.cols, ffillGo (List.replicate df.cols.length Cell.missing) df.rows⟩

/-- The missing-value handling step (src/app.py lines 1124-1141): dispatch
on the method string, then report how many missing cells were resolved. -/
def missingStep (df : DF) (ops : Ops) : DF × List String :=
  if ops.handle_missing then
    let initialMissing := countMissing df
    let d :=
      if ops.missing_method = "drop" then dropna df
      else if ops.missing_method = "fill_mean" then fillMean df
      else if ops.missing_method = "fill_forward" then ffillDF df
      else df
    let handled : Int := (initialMissing : Int) - (countMissing d : Int)
    (d, if 0 < handled then
          ["Handled " ++ toString handled ++ " missing values (" ++ ops.missing_method ++ ")"]
        else [])
  else (df, [])

/-- Python `str()` of a numeric value, as applied by `astype(str)` (the
exact digit rendering of a float is immaterial to the engine; what matters
is that it is a plain token, without surrounding whitespace). -/
def numStr (q : PyNum) : String :=
  if q.den = 1 then toString q.num else toString q.num ++ "/" ++ toString q.den

/-- Python `str()` of a cell, as applied by `astype(str)` (src/app.py lines
1148/1150): a NaN missing marker stringifies to `"nan"`. -/
def strOfCell : Cell → String
  | .str s => s
  | .num q => numStr q
  | .missing => "nan"
  | .pylist xs => "[" ++ String.intercalate ", " (xs.map numStr) ++ "]"

/-- Whitespace test used by Python `str.strip()`. -/
def isSpace (c : Char) : Bool := c.isWhitespace

/-- Strip leading whitespace characters. -/
def stripL (l : List Char) : List Char := l.dropWhile isSpace

/-- Strip trailing whitespace characters. -/
def stripR (l : List Char) : List Char := (l.reverse.dropWhile isSpace).reverse

/-- Python `str.strip()`: drop leading and trailing whitespace. -/
def pyStrip (s : String) : String := ⟨stripR (stripL s.data)⟩

/-- Python `str.lower()`. -/
def pyLower (s : String) : String := ⟨s.data.map Char.toLower⟩

/-- The per-cell effect of the text standardization loop body (src/app.py
lines 1147-1150): `astype(str)` then lowercase if selected, then
`astype(str)` then strip if selected. -/
def textCell (ops : Ops) (c : Cell) : Cell :=
  let c1 := if ops.text_lowercase then Cell.str (pyLower (strOfCell c)) else c
  if ops.text_trim then Cell.str (pyStrip (strOfCell c1)) else c1

/-- Apply `textCell` at the cells of object-dtype columns, walking the
column headers and the row's cells in alignment. -/
def textCells (ops : Ops) : List Dtype → List Cell → List Cell
  | t :: ts, c :: cs =>
    (if t = Dtype.obj then textCell ops c else c) :: textCells ops ts cs
  | _, cs => cs

/-- Text standardization applied to every row (columns of object dtype
only, as selected by `select_dtypes(include=['object'])`). -/
def textApply (df : DF) (ops : Ops) : DF :=
  ⟨df.cols, df.rows.map (fun r => ⟨r.id, textCells ops (df.cols.map Col.dtype) r.cells⟩)⟩

/-- Number of object-dtype columns (`len(text_columns)`). -/
def countObj (cs : List Col) : Nat := (cs.filter (fun c => c.dtype = Dtype.obj)).length

/-- The text standardization step (src/app.py lines 1144-1153); the log
line is appended whenever there is at least one text column. -/
def textStep (df : DF) (ops : Ops) : DF × List String :=
  if ops.standardize_text then
    (textApply df ops,
     if 0 < countObj df.cols then
       ["Standardized text in " ++ toString (countObj df.cols) ++ " columns"]
     else [])
  else (df, [])

/-- Insert into a sorted list (ascending). -/
def insertSorted (x : PyNum) : List PyNum → List PyNum
  | [] => [x]
  | y :: ys => if pyLe x y then x :: y :: ys else y :: insertSorted x ys

/-- Insertion sort, ascending. -/
def sortQ (l : List PyNum) : List PyNum := l.foldr insertSorted []

/-- Floor of a nonnegative rational as a natural number (used for the
quantile interpolation position, which is always nonnegative). -/
def qFloorNat (q : PyNum) : Nat := (q.num / (q.den : Int)).toNat

/-- `Series.quantile(p)` with pandas' default linear interpolation over the
non-missing values; `none` models the NaN quantile of an empty series. -/
def quantileLin (p : PyNum) (vs : List PyNum) : Option PyNum :=
  match sortQ vs with
  | [] => none
  | x :: xs =>
    let l := x :: xs
    let n : Nat := l.length
    let pos : PyNum := pyMul p (pySub (pyInt (n : Int)) (pyInt 1))
    let i : Nat := qFloorNat pos
    let lo := l.getD i (pyInt 0)
    let hi := l.getD (i + 1) lo
    some (pyAdd lo (pyMul (pySub pos (pyInt (i : Int))) (pySub hi lo)))

/-- IQR bounds `[Q1 - 1.5*IQR, Q3 + 1.5*IQR]` (src/app.py lines 1161-1165);
`none` models the NaN bounds of a column with no numeric values. -/
def iqrBounds (vs : List PyNum) : Option (PyNum × PyNum) :=
  match quantileLin ⟨1, 4⟩ vs, quantileLin ⟨3, 4⟩ vs with
  | some q1, some q3 =>
    let iqr := pySub q3 q1
    some (pySub q1 (pyMul ⟨3, 2⟩ iqr), pyAdd q3 (pyMul ⟨3, 2⟩ iqr))
  | _, _ => none

/-- The row-retention test `(df[col] >= lo) & (df[col] <= hi)`: false for
any non-numeric cell (a NaN comparison is false in pandas). -/
def cellInB (lo hi : PyNum) : Cell → Bool
  | .num q => pyLe lo q && pyLe q hi
  | _ => false

/-- One iteration of the outlier loop body (src/app.py lines 1160-1168):
compute the bounds of column `j` from the *current* rows, then keep only
rows whose column-`j` cell lies within them.  With NaN bounds (no numeric
values) every comparison is false, so every row is removed. -/
def outlierFilterCol (df : DF) (j : Nat) : DF :=
  match iqrBounds (numsOf (colCells df.rows j)) with
  | none => ⟨df.cols, []⟩
  | some (lo, hi) =>
    ⟨df.cols, df.rows.filter (fun r => cellInB lo hi (r.cells.getD j Cell.missing))⟩

/-- Positions of the numeric-dtype columns
(`select_dtypes(include=[np.number]).columns`). -/
def numIdxGo : Nat → List Col → List Nat
  | _, [] => []
  | j, c :: cs =>
    if c.dtype = Dtype.numeric then j :: numIdxGo (j + 1) cs
    else numIdxGo (j + 1) cs

/-- Positions of the numeric columns of a dataframe. -/
def numericIdxs (df : DF) : List Nat := numIdxGo 0 df.cols

/-- The sequential outlier removal of src/app.py lines 1156-1168: the
numeric column list is fixed up front, but each column's bounds are
computed from the rows *surviving the previous columns' filters*. -/
def outlierApply (df : DF) : DF :=
  (numericIdxs df).foldl outlierFilterCol df

/-- The outlier removal step (src/app.py lines 1156-1172). -/
def outlierStep (df : DF) (ops : Ops) : DF × List String :=
  if ops.remove_outliers then
    let d := outlierApply df
    let removed := df.rows.length - d.rows.length
    (d, if 0 < removed then
          ["Removed " ++ toString removed ++ " outlier rows"]
        else [])
  else (df, [])

/-- The duplicate removal step (src/app.py lines 1116-1121). -/
def dedupStep (df : DF) (ops : Ops) : Except String (DF × List String) :=
  if ops.remove_duplicates then
    match drop_duplicates df with
    | .ok d =>
      let removed := df.rows.length - d.rows.length
      .ok (d, if 0 < removed then
                ["Removed " ++ toString removed ++ " duplicate rows"]
              else [])
    | .error e => .error e
  else .ok (df, [])

/-- `DataProcessor.clean_data` (src/app.py lines 1109-1177): run the four
operation blocks in order on a copy of the input; any exception makes the
whole call return `(None, ["Error during cleaning: ..."])`. -/
def clean_data (df : DF) (ops : Ops) : Option DF × List String :=
  match dedupStep df ops with
  | .error e => (none, ["Error during cleaning: " ++ e])
  | .ok (d1, l1) =>
    let p2 := missingStep d1 ops
    let p3 := textStep p2.1 ops
    let p4 := outlierStep p3.1 ops
    (some p4.1, l1 ++ (p2.2 ++ (p3.2 ++ p4.2)))

/-- The up-front IQR variant described by the spec (§4.6 determinism
requirement): every numeric column's bounds are computed once from the
pristine values, then a single combined pass removes each row that falls
outside any column's bounds. -/
def iqrUpfront (df : DF) : DF :=
  let bs := (numericIdxs df).map (fun j => (j, iqrBounds (numsOf (colCells df.rows j))))
  ⟨df.cols, df.rows.filter (fun r =>
    bs.all (fun jb =>
      match jb.2 with
      | none => false
      | some (lo, hi) => cellInB lo hi (r.cells.getD jb.1 Cell.missing)))⟩

/-- The operation selection that requests only whitespace trimming. -/
def trimOnlyOps : Ops :=
  { standardize_text := true, text_lowercase := false, text_trim := true }

section ListLemmas

/-- `getD` of a mapped row list, when the mapping fixes the default row. -/
theorem map_getD_row (f : Row → Row) (l : List Row) (i : Nat) (h : f rDflt = rDflt) :
    (l.map f).getD i rDflt = f (l.getD i rDflt) := by
  induction l generalizing i with
  | nil => simp [List.getD, h]
  | cons r rs ih =>
    cases i with
    | zero => rfl
    | succ i => simpa using ih i

/-- An in-range `getD` element is a member of the list. -/
theorem getD_mem_of_lt {α : Type} (l : List α) (n : Nat) (d : α) (h : n < l.length) :
    l.getD n d ∈ l := by
  induction l generalizing n with
  | nil => simp at h
  | cons a l ih =>
    cases n with
    | zero => exact List.mem_cons_self a l
    | succ n => exact List.mem_cons_of_mem a (ih n (Nat.lt_of_succ_lt_succ h))

end ListLemmas

section FillLemmas

theorem fillCells_nil (ms : List (Option PyNum)) : fillCells ms [] = [] := by
  cases ms <;> rfl

theorem fillCells_nil_means (cs : List Cell) : fillCells [] cs = cs := by
  cases cs <;> rfl

/-- A position whose fill value is `none` is left unchanged by `fillCells`. -/
theorem fillCells_getD_none (ms : List (Option PyNum)) (cs : List Cell) (j : Nat)
    (h : ms.getD j none = none) :
    (fillCells ms cs).getD j Cell.missing = cs.getD j Cell.missing := by
  induction ms generalizing cs j with
  | nil => rw [fillCells_nil_means]
  | cons m ms ih =>
    cases cs with
    | nil => rw [fillCells_nil]
    | cons c cs =>
      cases j with
      | zero =>
        simp only [List.getD_cons_zero] at h
        subst h
        rfl
      | succ j => exact ih cs j h

/-- Non-numeric columns get no fill value. -/
theorem meansGo_getD_none (df : DF) (cs : List Col) (j0 k : Nat)
    (h : (cs.getD k cDflt).dtype ≠ Dtype.numeric) :
    (meansGo df j0 cs).getD k none = none := by
  induction cs generalizing j0 k with
  | nil => simp [meansGo, List.getD]
  | cons c cs ih =>
    cases k with
    | zero =>
      simp only [List.getD_cons_zero] at h ⊢
      simp [meansGo, h]
    | succ k => exact ih (j0 + 1) k h

/-- `fill_mean` leaves every cell of a non-numeric column unchanged. -/
theorem fillMean_cellAt_nonnum (df : DF) (i j : Nat)
    (h : (df.cols.getD j cDflt).dtype ≠ Dtype.numeric) :
    cellAt (fillMean df) i j = cellAt df i j := by
  unfold cellAt fillMean
  rw [map_getD_row _ _ _ (by simp [rDflt, fillCells_nil])]
  exact fillCells_getD_none _ _ _ (meansGo_getD_none df df.cols 0 j h)

/-- `fill_mean` preserves every row identifier. -/
theorem fillMean_id (df : DF) (i : Nat) :
    ((fillMean df).rows.getD i rDflt).id = (df.rows.getD i rDflt).id := by
  unfold fillMean
  rw [map_getD_row _ _ _ (by simp [rDflt, fillCells_nil])]

end FillLemmas

section TextLemmas

theorem textCells_nil (ops : Ops) (ts : List Dtype) : textCells ops ts [] = [] := by
  cases ts <;> rfl

theorem textCells_nil_dts (ops : Ops) (cs : List Cell) : textCells ops [] cs = cs := by
  cases cs <;> rfl

/-- The dtype at a position of the mapped dtype list. -/
theorem dtypes_getD (cs : List Col) (j : Nat) :
    (cs.map Col.dtype).getD j Dtype.other = (cs.getD j cDflt).dtype := by
  induction cs generalizing j with
  | nil => simp [List.getD, cDflt]
  | cons c cs ih =>
    cases j with
    | zero => rfl
    | succ j => simpa using ih j

/-- Cells of non-object columns are left unchanged by text standardization. -/
theorem textCells_getD_nonobj (ops : Ops) (ts : List Dtype) (cs : List Cell) (j : Nat)
    (h : ts.getD j Dtype.other ≠ Dtype.obj) :
    (textCells ops ts cs).getD j Cell.missing = cs.getD j Cell.missing := by
  induction ts generalizing cs j with
  | nil => rw [textCells_nil_dts]
  | cons t ts ih =>
    cases cs with
    | nil => rw [textCells_nil]
    | cons c cs =>
      cases j with
      | zero =>
        simp only [List.getD_cons_zero] at h ⊢
        simp [textCells, h]
      | succ j => exact ih cs j h

/-- In-range cells of object columns are rewritten through `textCell`. -/
theorem textCells_getD_obj (ops : Ops) (ts : List Dtype) (cs : List Cell) (j : Nat)
    (hj : j < ts.length) (hc : j < cs.length) (h : ts.getD j Dtype.other = Dtype.obj) :
    (textCells ops ts cs).getD j Cell.missing = textCell ops (cs.getD j Cell.missing) := by
  induction ts generalizing cs j with
  | nil => simp at hj
  | cons t ts ih =>
    cases cs with
    | nil => simp at hc
    | cons c cs =>
      cases j with
      | zero =>
        simp only [List.getD_cons_zero] at h ⊢
        simp [textCells, h]
      | succ j =>
        exact ih cs j (Nat.lt_of_succ_lt_succ hj) (Nat.lt_of_succ_lt_succ hc) h

/-- `textApply` leaves every cell of a non-object column unchanged. -/
theorem textApply_cellAt_nonobj (df : DF) (ops : Ops) (i j : Nat)
    (h : (df.cols.getD j cDflt).dtype ≠ Dtype.obj) :
    cellAt (textApply df ops) i j = cellAt df i j := by
  unfold cellAt textApply
  rw [map_getD_row _ _ _ (by simp [rDflt, textCells_nil])]
  exact textCells_getD_nonobj _ _ _ _ (by rw [dtypes_getD]; exact h)

/-- `textApply` preserves every row identifier. -/
theorem textApply_id (df : DF) (ops : Ops) (i : Nat) :
    ((textApply df ops).rows.getD i rDflt).id = (df.rows.getD i rDflt).id := by
  unfold textApply
  rw [map_getD_row _ _ _ (by simp [rDflt, textCells_nil])]

end TextLemmas

section DedupLemmas

/-- Every row kept by the duplicate filter is an input row. -/
theorem dropDupGo_subset (seen : List (List Cell)) (rs : List Row) (r : Row)
    (h : r ∈ dropDupGo seen rs) : r ∈ rs := by
  induction rs generalizing seen with
  | nil => simp [dropDupGo] at h
  | cons r0 rs ih =>
    by_cases hs : r0.cells ∈ seen
    · simp only [dropDupGo, if_pos hs] at h
      exact List.mem_cons_of_mem r0 (ih seen h)
    · simp only [dropDupGo, if_neg hs] at h
      rcases List.mem_cons.mp h with h1 | h1
      · exact h1 ▸ List.mem_cons_self r0 rs
      · exact List.mem_cons_of_mem r0 (ih _ h1)

/-- The duplicate filter keeps a subsequence of the input rows. -/
theorem dropDupGo_sublist (seen : List (List Cell)) (rs : List Row) :
    List.Sublist (dropDupGo seen rs) rs := by
  induction rs generalizing seen with
  | nil => simp [dropDupGo]
  | cons r0 rs ih =>
    by_cases hs : r0.cells ∈ seen
    · simp only [dropDupGo, if_pos hs]
      exact (ih seen).cons r0
    · simp only [dropDupGo, if_neg hs]
      exact (ih _).cons₂ r0

/-- A first occurrence whose cells are unseen is kept by the duplicate
filter. -/
theorem dropDupGo_mem_of_first (rs : List Row) (seen : List (List Cell)) (i : Nat)
    (hi : i < rs.length) (hseen : (rs.getD i rDflt).cells ∉ seen)
    (hfirst : ∀ k, k < i → (rs.getD k rDflt).cells ≠ (rs.getD i rDflt).cells) :
    rs.getD i rDflt ∈ dropDupGo seen rs := by
  induction rs generalizing seen i with
  | nil => simp at hi
  | cons r0 rs ih =>
    cases i with
    | zero =>
      simp only [List.getD_cons_zero] at hseen ⊢
      simp only [dropDupGo, if_neg hseen]
      exact List.mem_cons_self _ _
    | succ i =>
      simp only [List.getD_cons_succ] at hseen hfirst ⊢
      by_cases hs : r0.cells ∈ seen
      · simp only [dropDupGo, if_pos hs]
        exact ih seen i (Nat.lt_of_succ_lt_succ hi) hseen
          (fun k hk => hfirst (k + 1) (Nat.succ_lt_succ hk))
      · simp only [dropDupGo, if_neg hs]
        refine List.mem_cons_of_mem r0 (ih _ i (Nat.lt_of_succ_lt_succ hi) ?_
          (fun k hk => hfirst (k + 1) (Nat.succ_lt_succ hk)))
        intro hmem
        rcases List.mem_cons.mp hmem with h1 | h1
        · exact hfirst 0 (Nat.succ_pos i) h1.symm
        · exact hseen h1

/-- Every row kept by the duplicate filter sits at a first-occurrence
position with unseen cells. -/
theorem dropDupGo_first_of_mem (rs : List Row) (seen : List (List Cell)) (r : Row)
    (h : r ∈ dropDupGo seen rs) :
    r.cells ∉ seen ∧ ∃ i, i < rs.length ∧ rs.getD i rDflt = r ∧
      ∀ k, k < i → (rs.getD k rDflt).cells ≠ r.cells := by
  induction rs generalizing seen with
  | nil => simp [dropDupGo] at h
  | cons r0 rs ih =>
    by_cases hs : r0.cells ∈ seen
    · simp only [dropDupGo, if_pos hs] at h
      obtain ⟨hns, i, hi, heq, hfirst⟩ := ih seen h
      refine ⟨hns, i + 1, Nat.succ_lt_succ hi, heq, ?_⟩
      intro k hk
      cases k with
      | zero =>
        simp only [List.getD_cons_zero]
        intro hcells
        exact hns (hcells ▸ hs)
      | succ k => exact hfirst k (Nat.lt_of_succ_lt_succ hk)
    · simp only [dropDupGo, if_neg hs] at h
      rcases List.mem_cons.mp h with h1 | h1
      · subst h1
        exact ⟨hs, 0, Nat.succ_pos _, rfl, fun k hk => by simp at hk⟩
      · obtain ⟨hns, i, hi, heq, hfirst⟩ := ih _ h1
        have hne : r.cells ≠ r0.cells := fun hc => hns (hc ▸ List.mem_cons_self _ _)
        refine ⟨fun hc => hns (List.mem_cons_of_mem _ hc), i + 1,
          Nat.succ_lt_succ hi, heq, ?_⟩
        intro k hk
        cases k with
        | zero => exact fun hc => hne (hc.symm)
        | succ k => exact hfirst k (Nat.lt_of_succ_lt_succ hk)

/-- With pairwise-distinct row identifiers, a row value determines its
position. -/
theorem rows_getD_inj (rs : List Row) (hnd : (rs.map Row.id).Nodup) (i k : Nat)
    (hi : i < rs.length) (hk : k < rs.length)
    (heq : rs.getD i rDflt = rs.getD k rDflt) : i = k := by
  induction rs generalizing i k with
  | nil => simp at hi
  | cons r0 rs ih =>
    rw [List.map_cons, List.nodup_cons] at hnd
    cases i with
    | zero =>
      cases k with
      | zero => rfl
      | succ k =>
        exfalso
        simp only [List.getD_cons_zero, List.getD_cons_succ] at heq
        exact hnd.1 (heq ▸ List.mem_map_of_mem Row.id
          (getD_mem_of_lt rs k rDflt (Nat.lt_of_succ_lt_succ hk)))
    | succ i =>
      cases k with
      | zero =>
        exfalso
        simp only [List.getD_cons_zero, List.getD_cons_succ] at heq
        exact hnd.1 (heq ▸ List.mem_map_of_mem Row.id
          (getD_mem_of_lt rs i rDflt (Nat.lt_of_succ_lt_succ hi)))
      | succ k =>
        simp only [List.getD_cons_succ] at heq
        exact congrArg Nat.succ (ih hnd.2 i k (Nat.lt_of_succ_lt_succ hi)
          (Nat.lt_of_succ_lt_succ hk) heq)

/-- Unfold a successful `drop_duplicates`. -/
theorem drop_duplicates_ok (df : DF) (d : DF) (h : drop_duplicates df = Except.ok d) :
    d = ⟨df.cols, dropDupGo [] df.rows⟩ := by
  unfold drop_duplicates at h
  by_cases hh : df.rows.all rowHashable
  · rw [if_pos hh] at h
    exact (Except.ok.injEq _ _ ▸ h).symm
  · rw [if_neg hh] at h
    simp at h

end DedupLemmas

section OutlierLemmas

/-- One outlier pass keeps only input rows. -/
theorem outlierFilterCol_subset (df : DF) (j : Nat) (r : Row)
    (h : r ∈ (outlierFilterCol df j).rows) : r ∈ df.rows := by
  unfold outlierFilterCol at h
  rcases hb : iqrBounds (numsOf (colCells df.rows j)) with _ | ⟨lo, hi⟩
  · rw [hb] at h
    simp at h
  · rw [hb] at h
    exact List.mem_of_mem_filter h

/-- One outlier pass preserves the column headers. -/
theorem outlierFilterCol_cols (df : DF) (j : Nat) :
    (outlierFilterCol df j).cols = df.cols := by
  unfold outlierFilterCol
  rcases iqrBounds (numsOf (colCells df.rows j)) with _ | ⟨lo, hi⟩ <;> rfl

/-- The whole sequential outlier loop keeps only input rows. -/
theorem outlierFold_subset (idxs : List Nat) (df : DF) (r : Row)
    (h : r ∈ (idxs.foldl outlierFilterCol df).rows) : r ∈ df.rows := by
  induction idxs generalizing df with
  | nil => simpa using h
  | cons j idxs ih =>
    exact outlierFilterCol_subset df j r (ih (outlierFilterCol df j) h)

/-- The sequential outlier loop preserves the column headers. -/
theorem outlierFold_cols (idxs : List Nat) (df : DF) :
    (idxs.foldl outlierFilterCol df).cols = df.cols := by
  induction idxs generalizing df with
  | nil => rfl
  | cons j idxs ih =>
    rw [List.foldl_cons, ih (outlierFilterCol df j), outlierFilterCol_cols]

/-- `outlierApply` keeps only input rows. -/
theorem outlierApply_subset (df : DF) (r : Row)
    (h : r ∈ (outlierApply df).rows) : r ∈ df.rows :=
  outlierFold_subset _ df r h

end OutlierLemmas

section FfillLemmas

/-- Forward fill preserves the row identifiers (and the row count). -/
theorem ffillGo_ids (last : List Cell) (rs : List Row) :
    (ffillGo last rs).map Row.id = rs.map Row.id := by
  induction rs generalizing last with
  | nil => rfl
  | cons r rs ih => simpa [ffillGo] using ih (ffillCells last r.cells)

end FfillLemmas

section StripLemmas

theorem dropWhile_dropWhile (p : Char → Bool) (l : List Char) :
    List.dropWhile p (List.dropWhile p l) = List.dropWhile p l := by
  induction l with
  | nil => rfl
  | cons a l ih =>
    cases hp : p a
    · simp [List.dropWhile_cons, hp]
    · simp [List.dropWhile_cons, hp, ih]

theorem dropWhile_cons_eq_self (p : Char → Bool) (a : Char) (l : List Char)
    (h : List.dropWhile p (a :: l) = a :: l) : p a = false := by
  cases hp : p a
  · rfl
  · exfalso
    rw [List.dropWhile_cons, if_pos (by simp [hp])] at h
    have hlen : (List.dropWhile p l).length ≤ l.length := (List.dropWhile_sublist p).length_le
    rw [h] at hlen
    simp at hlen

theorem dropWhile_of_append_fixed (p : Char → Bool) (l t : List Char)
    (h : List.dropWhile p (l ++ t) = l ++ t) : List.dropWhile p l = l := by
  cases l with
  | nil => rfl
  | cons a l =>
    have ha : p a = false := dropWhile_cons_eq_self p a (l ++ t) (by simpa using h)
    simp [List.dropWhile_cons, ha]

theorem stripR_decomp (l : List Char) : l = stripR l ++ (l.reverse.takeWhile isSpace).reverse := by
  unfold stripR
  calc l = l.reverse.reverse := (List.reverse_reverse l).symm
    _ = ((l.reverse.takeWhile isSpace) ++ (l.reverse.dropWhile isSpace)).reverse := by
        rw [List.takeWhile_append_dropWhile]
    _ = _ := by rw [List.reverse_append]

theorem stripL_stripR_of_fixed (l : List Char) (h : stripL l = l) :
    stripL (stripR l) = stripR l := by
  have hd := stripR_decomp l
  exact dropWhile_of_append_fixed isSpace (stripR l) _ (by rw [← hd]; exact h)

theorem stripR_stripR (l : List Char) : stripR (stripR l) = stripR l := by
  show (((stripR l).reverse.dropWhile isSpace)).reverse = stripR l
  unfold stripR
  rw [List.reverse_reverse, dropWhile_dropWhile]

/-- Python `strip()` is idempotent. -/
theorem pyStrip_idem (s : String) : pyStrip (pyStrip s) = pyStrip s := by
  show (⟨stripR (stripL (stripR (stripL s.data)))⟩ : String) = ⟨stripR (stripL s.data)⟩
  have h1 : stripL (stripL s.data) = stripL s.data := dropWhile_dropWhile _ _
  rw [stripL_stripR_of_fixed (stripL s.data) h1, stripR_stripR]

end StripLemmas

section TrimIdem

/-- The per-cell trim transformation is idempotent. -/
theorem textCell_trim_idem (c : Cell) :
    textCell trimOnlyOps (textCell trimOnlyOps c) = textCell trimOnlyOps c := by
  simp [textCell, trimOnlyOps, strOfCell, pyStrip_idem]

theorem textCells_trim_idem (ts : List Dtype) (cs : List Cell) :
    textCells trimOnlyOps ts (textCells trimOnlyOps ts cs) = textCells trimOnlyOps ts cs := by
  induction ts generalizing cs with
  | nil => rw [textCells_nil_dts, textCells_nil_dts]
  | cons t ts ih =>
    cases cs with
    | nil => rw [textCells_nil, textCells_nil]
    | cons c cs =>
      by_cases h : t = Dtype.obj
      · simp only [textCells, if_pos h]
        rw [textCell_trim_idem, ih]
      · simp only [textCells, if_neg h]
        rw [ih]

/-- Trimming a second time changes nothing. -/
theorem textApply_trim_idem (df : DF) :
    textApply (textApply df trimOnlyOps) trimOnlyOps = textApply df trimOnlyOps := by
  unfold textApply
  simp only [List.map_map]
  congr 1
  apply List.map_congr_left
  intro r _
  simp only [Function.comp]
  rw [textCells_trim_idem]

/-- With only trimming requested, `clean_data` returns the text pass. -/
theorem clean_trim_fst (df : DF) :
    (clean_data df trimOnlyOps).1 = some (textApply df trimOnlyOps) := rfl

end TrimIdem

section ColsLemmas

theorem missingStep_cols (df : DF) (ops : Ops) : (missingStep df ops).1.cols = df.cols := by
  unfold missingStep
  by_cases h : ops.handle_missing = true
  · simp only [if_pos h]
    split_ifs <;> rfl
  · simp only [if_neg h]

theorem textStep_cols (df : DF) (ops : Ops) : (textStep df ops).1.cols = df.cols := by
  unfold textStep
  by_cases h : ops.standardize_text = true
  · simp only [if_pos h]
    rfl
  · simp only [if_neg h]

theorem outlierStep_cols (df : DF) (ops : Ops) : (outlierStep df ops).1.cols = df.cols := by
  unfold outlierStep
  by_cases h : ops.remove_outliers = true
  · simp only [if_pos h]
    exact outlierFold_cols _ df
  · simp only [if_neg h]

theorem dedupStep_cols (df : DF) (ops : Ops) (d : DF) (l : List String)
    (h : dedupStep df ops = Except.ok (d, l)) : d.cols = df.cols := by
  unfold dedupStep at h
  by_cases hf : ops.remove_duplicates = true
  · rw [if_pos hf] at h
    cases hdd : drop_duplicates df with
    | error e => rw [hdd] at h; simp at h
    | ok d0 =>
      rw [hdd] at h
      have hd0 : d = d0 := by
        have := (Except.ok.injEq _ _ ▸ h)
        exact (congrArg Prod.fst this).symm
      rw [hd0, drop_duplicates_ok df d0 hdd]
  · rw [if_neg hf] at h
    have h2 : (df, ([] : List String)) = (d, l) := Except.ok.injEq _ _ ▸ h
    have h3 : df = d := congrArg Prod.fst h2
    rw [← h3]

end ColsLemmas

section SingleColumn

/-- With a single numeric column the sequential loop and the up-front
variant coincide: the one pass computes its bounds from pristine data. -/
theorem outlier_single_upfront (df : DF) (j : Nat) (h : numericIdxs df = [j]) :
    outlierApply df = iqrUpfront df := by
  unfold outlierApply iqrUpfront
  rw [h]
  simp only [List.foldl_cons, List.foldl_nil, List.map_cons, List.map_nil]
  unfold outlierFilterCol
  cases hb : iqrBounds (numsOf (colCells df.rows j)) with
  | none =>
    simp only [List.all_cons, List.all_nil, Bool.and_true]
    have : (df.rows.filter fun _ => false) = [] := by
      induction df.rows with
      | nil => rfl
      | cons r rs ih => simp [ih]
    rw [this]
  | some b =>
    obtain ⟨lo, hi⟩ := b
    simp only [List.all_cons, List.all_nil, Bool.and_true]

end SingleColumn

section Examples

/-- Duplicate-removal example `[A, B, A, C, B]` from the spec (§8). -/
def dfDup : DF :=
  ⟨[⟨"v", Dtype.obj⟩],
   [⟨0, [Cell.str "A"]⟩, ⟨1, [Cell.str "B"]⟩, ⟨2, [Cell.str "A"]⟩,
    ⟨3, [Cell.str "C"]⟩, ⟨4, [Cell.str "B"]⟩]⟩

/-- Expected duplicate-removal result `[A, B, C]` keeping ids 0, 1, 3. -/
def dfDupRes : DF :=
  ⟨[⟨"v", Dtype.obj⟩],
   [⟨0, [Cell.str "A"]⟩, ⟨1, [Cell.str "B"]⟩, ⟨3, [Cell.str "C"]⟩]⟩

/-- Operation selection requesting only duplicate removal. -/
def opsDup : Ops := { remove_duplicates := true }

/-- fill_mean example column `[10, missing, 30]` from the spec (§8). -/
def dfFM : DF :=
  ⟨[⟨"n", Dtype.numeric⟩],
   [⟨0, [Cell.num (pyInt 10)]⟩, ⟨1, [Cell.missing]⟩, ⟨2, [Cell.num (pyInt 30)]⟩]⟩

/-- Expected fill_mean result `[10, 20, 30]`. -/
def dfFMRes : DF :=
  ⟨[⟨"n", Dtype.numeric⟩],
   [⟨0, [Cell.num (pyInt 10)]⟩, ⟨1, [Cell.num (pyInt 20)]⟩, ⟨2, [Cell.num (pyInt 30)]⟩]⟩

/-- fill_mean edge case: an all-missing numeric column. -/
def dfFM2 : DF :=
  ⟨[⟨"n", Dtype.numeric⟩], [⟨0, [Cell.missing]⟩, ⟨1, [Cell.missing]⟩]⟩

/-- Operation selection requesting only mean filling. -/
def opsFM : Ops := { handle_missing := true, missing_method := "fill_mean" }

/-- IQR example column `[1, 2, 3, 4, 5, 100]` from the spec (§8). -/
def df5 : DF :=
  ⟨[⟨"v", Dtype.numeric⟩],
   [⟨0, [Cell.num (pyInt 1)]⟩, ⟨1, [Cell.num (pyInt 2)]⟩, ⟨2, [Cell.num (pyInt 3)]⟩,
    ⟨3, [Cell.num (pyInt 4)]⟩, ⟨4, [Cell.num (pyInt 5)]⟩, ⟨5, [Cell.num (pyInt 100)]⟩]⟩

/-- Expected IQR result: the row holding 100 removed, nothing else. -/
def df5Res : DF :=
  ⟨[⟨"v", Dtype.numeric⟩],
   [⟨0, [Cell.num (pyInt 1)]⟩, ⟨1, [Cell.num (pyInt 2)]⟩, ⟨2, [Cell.num (pyInt 3)]⟩,
    ⟨3, [Cell.num (pyInt 4)]⟩, ⟨4, [Cell.num (pyInt 5)]⟩]⟩

/-- Operation selection requesting only outlier removal. -/
def opsOut : Ops := { remove_outliers := true }

/-- Two numeric columns on which the sequential per-column IQR filtering
of the code differs from the spec's up-front variant: column A flags row 1
as its only outlier; with row 1 removed, column B's recomputed bounds
tighten enough to flag row 2, which the pristine bounds accept. -/
def dfB : DF :=
  ⟨[⟨"A", Dtype.numeric⟩, ⟨"B", Dtype.numeric⟩],
   [⟨0, [Cell.num (pyInt 0), Cell.num (pyInt 0)]⟩,
    ⟨1, [Cell.num (pyInt 1000), Cell.num (pyInt 50)]⟩,
    ⟨2, [Cell.num (pyInt 0), Cell.num (pyInt 40)]⟩,
    ⟨3, [Cell.num (pyInt 0), Cell.num (pyInt 1)]⟩,
    ⟨4, [Cell.num (pyInt 0), Cell.num (pyInt 2)]⟩,
    ⟨5, [Cell.num (pyInt 0), Cell.num (pyInt 3)]⟩]⟩

/-- What the code's sequential loop produces on `dfB`. -/
def dfBSeq : DF :=
  ⟨[⟨"A", Dtype.numeric⟩, ⟨"B", Dtype.numeric⟩],
   [⟨0, [Cell.num (pyInt 0), Cell.num (pyInt 0)]⟩,
    ⟨3, [Cell.num (pyInt 0), Cell.num (pyInt 1)]⟩,
    ⟨4, [Cell.num (pyInt 0), Cell.num (pyInt 2)]⟩,
    ⟨5, [Cell.num (pyInt 0), Cell.num (pyInt 3)]⟩]⟩

/-- What the spec's up-front variant produces on `dfB`. -/
def dfBUp : DF :=
  ⟨[⟨"A", Dtype.numeric⟩, ⟨"B", Dtype.numeric⟩],
   [⟨0, [Cell.num (pyInt 0), Cell.num (pyInt 0)]⟩,
    ⟨2, [Cell.num (pyInt 0), Cell.num (pyInt 40)]⟩,
    ⟨3, [Cell.num (pyInt 0), Cell.num (pyInt 1)]⟩,
    ⟨4, [Cell.num (pyInt 0), Cell.num (pyInt 2)]⟩,
    ⟨5, [Cell.num (pyInt 0), Cell.num (pyInt 3)]⟩]⟩

/-- A dataframe whose object column holds a Python list in one cell
(unhashable), together with a second requested operation. -/
def dfU : DF :=
  ⟨[⟨"t", Dtype.obj⟩], [⟨0, [Cell.pylist [pyInt 1, pyInt 2]]⟩, ⟨1, [Cell.missing]⟩]⟩

/-- Operations requesting duplicate removal and then missing-value drop. -/
def opsU : Ops :=
  { remove_duplicates := true, handle_missing := true, missing_method := "drop" }

/-- A small mixed dataframe used to instantiate the frame theorems. -/
def dfW1 : DF :=
  ⟨[⟨"a", Dtype.numeric⟩, ⟨"b", Dtype.obj⟩],
   [⟨0, [Cell.num (pyInt 1), Cell.str " x "]⟩, ⟨1, [Cell.missing, Cell.missing]⟩]⟩

/-- The first row of `dfW1`. -/
def rW1 : Row := ⟨0, [Cell.num (pyInt 1), Cell.str " x "]⟩

end Examples

/-- C1: scope isolation.  The code declares no explicit `(ColumnSet,
RowSet)` parameters: each operation's scope is the dtype-selected column
set with the row set always "all rows" (so no row is ever outside the row
scope).  For these declared scopes, every cell outside an operation's
column set, in every row present in the output, equals the corresponding
input cell exactly: duplicate removal, missing-value drop and outlier
removal only ever delete whole rows and keep surviving rows untouched;
mean filling leaves non-numeric columns untouched; text standardization
leaves non-object columns untouched; forward filling (scoped to all
columns) preserves every row identifier. -/
theorem claim1_scope_isolation :
    (∀ df d, drop_duplicates df = Except.ok d →
        d.cols = df.cols ∧ ∀ r ∈ d.rows, r ∈ df.rows)
  ∧ (∀ df : DF, (dropna df).cols = df.cols ∧ ∀ r ∈ (dropna df).rows, r ∈ df.rows)
  ∧ (∀ (df : DF) (i j : Nat), (df.cols.getD j cDflt).dtype ≠ Dtype.numeric →
        cellAt (fillMean df) i j = cellAt df i j ∧
        ((fillMean df).rows.getD i rDflt).id = (df.rows.getD i rDflt).id)
  ∧ (∀ (df : DF) (ops : Ops) (i j : Nat), (df.cols.getD j cDflt).dtype ≠ Dtype.obj →
        cellAt (textApply df ops) i j = cellAt df i j ∧
        ((textApply df ops).rows.getD i rDflt).id = (df.rows.getD i rDflt).id)
  ∧ (∀ (df : DF) (r : Row), r ∈ (outlierApply df).rows → r ∈ df.rows)
  ∧ (∀ df : DF, (ffillDF df).rows.map Row.id = df.rows.map Row.id) := by
  refine ⟨?_, ?_, ?_, ?_, ?_, ?_⟩
  · intro df d h
    rw [drop_duplicates_ok df d h]
    exact ⟨rfl, fun r hr => dropDupGo_subset [] df.rows r hr⟩
  · intro df
    exact ⟨rfl, fun r hr => List.mem_of_mem_filter hr⟩
  · intro df i j h
    exact ⟨fillMean_cellAt_nonnum df i j h, fillMean_id df i⟩
  · intro df ops i j h
    exact ⟨textApply_cellAt_nonobj df ops i j h, textApply_id df ops i⟩
  · intro df r h
    exact outlierApply_subset df r h
  · intro df
    exact ffillGo_ids _ _

/-- Witness for C1 at a concrete mixed dataframe. -/
theorem claim1_scope_isolation_inst :
    (rW1 ∈ dfW1.rows)
  ∧ (rW1 ∈ dfW1.rows)
  ∧ (cellAt (fillMean dfW1) 0 1 = cellAt dfW1 0 1)
  ∧ (cellAt (textApply dfW1 trimOnlyOps) 0 0 = cellAt dfW1 0 0)
  ∧ (rW1 ∈ dfW1.rows)
  ∧ ((ffillDF dfW1).rows.map Row.id = dfW1.rows.map Row.id) :=
  ⟨(claim1_scope_isolation.1 dfW1 dfW1 (by rfl)).2 rW1 (by decide),
   (claim1_scope_isolation.2.1 dfW1).2 rW1 (by decide),
   (claim1_scope_isolation.2.2.1 dfW1 0 1 (by decide)).1,
   (claim1_scope_isolation.2.2.2.1 dfW1 trimOnlyOps 0 0 (by decide)).1,
   claim1_scope_isolation.2.2.2.2.1 dfW1 rW1 (by decide),
   claim1_scope_isolation.2.2.2.2.2 dfW1⟩

/-- C2 counterexample: on `dfB` the code's sequential per-column filtering
(clean_data with remove_outliers) keeps rows 0,3,4,5, while the up-front
bounds of the spec keep rows 0,2,3,4,5 — the bounds of column B are
recomputed from rows already filtered by column A, so the claim that
bounds are computed once, up front, from pristine values is false. -/
theorem claim2_seq_ne_upfront :
    (clean_data dfB opsOut).1 = some dfBSeq
  ∧ iqrUpfront dfB = dfBUp
  ∧ dfBSeq ≠ dfBUp :=
  ⟨by decide, by decide, by decide⟩

/-- C2 (amended): the code iterates numeric columns in order, computing
each column's IQR bounds from the rows surviving the previous columns'
filters; only the first column (hence any invocation with a single numeric
column in scope) uses pristine values, in which case the sequential loop
coincides with the spec's up-front combined pass. -/
theorem claim2_single_column_upfront (df : DF) (j : Nat)
    (h : numericIdxs df = [j]) : outlierApply df = iqrUpfront df :=
  outlier_single_upfront df j h

/-- Witness for C2 (amended) on the one-column example dataframe. -/
theorem claim2_single_column_upfront_inst : outlierApply df5 = iqrUpfront df5 :=
  claim2_single_column_upfront df5 0 (by decide)

/-- C3: duplicate removal keeps the first occurrence (by current row
order) of each distinct cell tuple and drops subsequent occurrences; on
`[A, B, A, C, B]` with the default key (all columns) and full scope it
returns `[A, B, C]` in original order (row ids 0, 1, 3) and logs
"Removed 2 duplicate rows". -/
theorem claim3_duplicates_first_occurrence :
    clean_data dfDup opsDup = (some dfDupRes, ["Removed 2 duplicate rows"])
  ∧ (∀ df d, drop_duplicates df = Except.ok d → List.Sublist d.rows df.rows)
  ∧ (∀ df d, drop_duplicates df = Except.ok d → (df.rows.map Row.id).Nodup →
      ∀ i, i < df.rows.length →
        (df.rows.getD i rDflt ∈ d.rows ↔
          ∀ k, k < i → (df.rows.getD k rDflt).cells ≠ (df.rows.getD i rDflt).cells)) := by
  refine ⟨by decide, ?_, ?_⟩
  · intro df d h
    rw [drop_duplicates_ok df d h]
    exact dropDupGo_sublist [] df.rows
  · intro df d h hnd i hi
    rw [drop_duplicates_ok df d h]
    constructor
    · intro hmem
      obtain ⟨-, i0, hi0, heq0, hfirst0⟩ := dropDupGo_first_of_mem df.rows [] _ hmem
      have hii : i0 = i := rows_getD_inj df.rows hnd i0 i hi0 hi heq0
      subst hii
      exact hfirst0
    · intro hfirst
      exact dropDupGo_mem_of_first df.rows [] i hi (List.not_mem_nil _) hfirst

/-- Witness for C3 at the `[A, B, A, C, B]` example: the kept rows are a
subsequence of the input, and position 2 (the second `A`) fails the
first-occurrence test. -/
theorem claim3_duplicates_inst :
    List.Sublist dfDupRes.rows dfDup.rows
  ∧ (dfDup.rows.getD 2 rDflt ∈ dfDupRes.rows ↔
      ∀ k, k < 2 → (dfDup.rows.getD k rDflt).cells ≠ (dfDup.rows.getD 2 rDflt).cells) :=
  ⟨claim3_duplicates_first_occurrence.2.1 dfDup dfDupRes (by rfl),
   claim3_duplicates_first_occurrence.2.2 dfDup dfDupRes (by rfl) (by decide) 2 (by decide)⟩

/-- C4: fill_mean fills missing cells of numeric columns with the mean of
the column's non-missing values (`[10, missing, 30]` becomes
`[10, 20, 30]` with one handled cell logged), an all-missing numeric
column is left missing (the NaN mean fills nothing, and nothing is
logged), and cells of non-numeric columns are never touched. -/
theorem claim4_fill_mean :
    clean_data dfFM opsFM = (some dfFMRes, ["Handled 1 missing values (fill_mean)"])
  ∧ clean_data dfFM2 opsFM = (some dfFM2, [])
  ∧ (∀ (df : DF) (i j : Nat), (df.cols.getD j cDflt).dtype ≠ Dtype.numeric →
      cellAt (fillMean df) i j = cellAt df i j) :=
  ⟨by decide, by decide, fun df i j h => fillMean_cellAt_nonnum df i j h⟩

/-- An object-column dataframe used to instantiate the C4 frame part. -/
def dfFM3 : DF := ⟨[⟨"s", Dtype.obj⟩], [⟨0, [Cell.missing]⟩]⟩

/-- Witness for C4: fill_mean does not touch the object column of
`dfFM3`. -/
theorem claim4_fill_mean_inst : cellAt (fillMean dfFM3) 0 0 = cellAt dfFM3 0 0 :=
  claim4_fill_mean.2.2 dfFM3 0 0 (by decide)

/-- C5: on the numeric column `[1, 2, 3, 4, 5, 100]` the IQR pass removes
exactly the row holding 100 (bounds are `[-1.5, 8.5]`) and no other. -/
theorem claim5_iqr_example :
    clean_data df5 opsOut = (some df5Res, ["Removed 1 outlier rows"]) := by
  decide

/-- C6 counterexample: a missing marker in a text column does not pass
through text standardization unchanged — `astype(str)` turns it into the
literal string "nan", which trim then keeps. -/
theorem claim6_missing_not_preserved :
    clean_data ⟨[⟨"t", Dtype.obj⟩], [⟨0, [Cell.missing]⟩]⟩ trimOnlyOps =
      (some ⟨[⟨"t", Dtype.obj⟩], [⟨0, [Cell.str "nan"]⟩]⟩,
       ["Standardized text in 1 columns"]) := by
  decide

/-- C6 (amended): during text standardization with trimming selected,
every cell of an object column is first converted to its Python string
representation; in particular a missing marker becomes the string "nan"
(which lowercase and trim leave unchanged) instead of passing through. -/
theorem claim6_missing_to_nan (df : DF) (ops : Ops) (i j : Nat)
    (hs : ops.standardize_text = true) (ht : ops.text_trim = true)
    (hj : j < df.cols.length) (hobj : (df.cols.getD j cDflt).dtype = Dtype.obj)
    (hc : j < (df.rows.getD i rDflt).cells.length)
    (hmiss : cellAt df i j = Cell.missing) :
    cellAt (textStep df ops).1 i j = Cell.str "nan" := by
  have h1 : (textStep df ops).1 = textApply df ops := by
    unfold textStep
    rw [if_pos hs]
  rw [h1]
  unfold cellAt textApply
  rw [map_getD_row _ _ _ (by simp [rDflt, textCells_nil])]
  rw [textCells_getD_obj ops _ _ j (by simpa using hj) hc
    (by rw [dtypes_getD]; exact hobj)]
  unfold cellAt at hmiss
  rw [hmiss]
  cases hl : ops.text_lowercase <;> simp [textCell, hl, ht] <;> rfl

/-- The single-missing-cell text dataframe. -/
def dfC6 : DF := ⟨[⟨"t", Dtype.obj⟩], [⟨0, [Cell.missing]⟩]⟩

/-- Witness for C6 (amended) at `dfC6`. -/
theorem claim6_missing_to_nan_inst :
    cellAt (textStep dfC6 trimOnlyOps).1 0 0 = Cell.str "nan" :=
  claim6_missing_to_nan dfC6 trimOnlyOps 0 0 rfl rfl (by decide) (by decide)
    (by decide) (by decide)

/-- C7: the whitespace-trim operation is idempotent — applying the
trim-only cleaning twice returns exactly the dataset of applying it
once. -/
theorem claim7_trim_idempotent (df : DF) (d : DF)
    (h : (clean_data df trimOnlyOps).1 = some d) :
    (clean_data d trimOnlyOps).1 = some d := by
  rw [clean_trim_fst] at h
  rw [clean_trim_fst]
  have hd : d = textApply df trimOnlyOps := by
    injection h with h2
    exact h2.symm
  subst hd
  rw [textApply_trim_idem]

/-- A dataframe with surrounding whitespace in a text cell. -/
def dfTr : DF :=
  ⟨[⟨"t", Dtype.obj⟩, ⟨"n", Dtype.numeric⟩],
   [⟨0, [Cell.str "  a ", Cell.num (pyInt 7)]⟩]⟩

/-- The trimmed version of `dfTr`. -/
def dfTrRes : DF :=
  ⟨[⟨"t", Dtype.obj⟩, ⟨"n", Dtype.numeric⟩],
   [⟨0, [Cell.str "a", Cell.num (pyInt 7)]⟩]⟩

/-- Witness for C7: one trim yields `dfTrRes`, and trimming again is a
fixed point. -/
theorem claim7_trim_idempotent_inst :
    (clean_data dfTr trimOnlyOps).1 = some dfTrRes
  ∧ (clean_data dfTrRes trimOnlyOps).1 = some dfTrRes :=
  ⟨by decide, claim7_trim_idempotent dfTr dfTrRes (by decide)⟩

/-- C8 counterexample: with duplicate removal and missing-value drop both
requested on a dataframe holding an unhashable cell, the failing first
operation is not isolated — `clean_data` abandons the whole batch,
returning no dataset at all (rather than the pre-failure state) and never
running the next requested operation. -/
theorem claim8_failure_aborts :
    clean_data dfU opsU = (none, ["Error during cleaning: unhashable type: list"])
  ∧ opsU.handle_missing = true :=
  ⟨by decide, rfl⟩

/-- C8 (amended): an operation failure is caught by the single try/except
around the whole batch: `clean_data` returns no dataset and the one log
entry "Error during cleaning: ...", so the failure never surfaces as an
exception, but the dataset state is lost and no further operation runs. -/
theorem claim8_error_shape (df : DF) (ops : Ops) (e : String)
    (h : dedupStep df ops = Except.error e) :
    clean_data df ops = (none, ["Error during cleaning: " ++ e]) := by
  unfold clean_data
  rw [h]

/-- Witness for C8 (amended) at the unhashable-cell dataframe. -/
theorem claim8_error_shape_inst :
    clean_data dfU opsU = (none, ["Error during cleaning: " ++ "unhashable type: list"]) :=
  claim8_error_shape dfU opsU "unhashable type: list" (by rfl)

/-- C10: whenever `clean_data` returns a dataset, that dataset has exactly
the input's column headers — same names, same count, same order. -/
theorem claim10_columns_preserved (df : DF) (ops : Ops) (d : DF) (l : List String)
    (h : clean_data df ops = (some d, l)) : d.cols = df.cols := by
  unfold clean_data at h
  cases hd : dedupStep df ops with
  | error e =>
    rw [hd] at h
    simp at h
  | ok p =>
    obtain ⟨d1, l1⟩ := p
    rw [hd] at h
    have h1 : (outlierStep (textStep (missingStep d1 ops).1 ops).1 ops).1 = d := by
      have h2 := congrArg Prod.fst h
      simpa using h2
    rw [← h1, outlierStep_cols, textStep_cols, missingStep_cols]
    exact dedupStep_cols df ops d1 l1 hd

/-- Witness for C10 at the duplicate-removal example. -/
theorem claim10_columns_preserved_inst : dfDupRes.cols = dfDup.cols :=
  claim10_columns_preserved dfDup opsDup dfDupRes ["Removed 2 duplicate rows"] (by decide)
